import Mathlib

/-!
Verification of the `powered-dynamo` resilience/batching layer
(`src/powered-dynamo.class.ts`) against its natural-language specification.

The TypeScript source is shallowly embedded below:

* errors raised by the document client are modelled by `DynError`
  (a `TransactionCanceledException`'s message is modelled by the structured
  list of cancellation reasons it renders, so the regex tests
  `/ConditionalCheckFailed/.test(msg)` and `/TransactionConflict/.test(msg)`
  become list membership);
* an asynchronous operation is modelled by a stream
  `Nat → Except DynError A` giving the outcome of its n-th invocation,
  threaded through computations as an explicit cursor (state) `Nat`;
* the recursive method `retryError` becomes `retryErrorS`, which also
  returns the final cursor (so the number of attempts consumed is visible)
  and the list of `retryableError` events emitted;
* JS objects used as maps (`RequestItems`, keys, items) become ordered
  association lists `List (String × _)`, matching `Object.keys` insertion
  order.
-/

/-- Cancellation reasons carried by a `TransactionCanceledException`.
`otherReason` stands for any reason that is neither a conditional-check
failure nor a transaction conflict (e.g. `None`). -/
inductive CancelReason where
  | conditionalCheckFailed
  | transactionConflict
  | otherReason
deriving DecidableEq, Repr

/-- Errors observable in the embedded layer.  `maxRetriesReached` is the
error constructed by `new MaxRetriesReached()` (note: the constructor call
in the source takes no argument, so the value is a bare tag).
`otherError s` stands for any other `Error` with `name = s`. -/
inductive DynError where
  | internalServerError
  | transactionCanceled (reasons : List CancelReason)
  | maxRetriesReached
  | otherError (nm : String)
deriving DecidableEq, Repr

/-- `PoweredDynamo.isInternalServerError`:
`error instanceof Error && error.name === "InternalServerError"`. -/
def isInternalServerError : DynError → Bool
  | .internalServerError => true
  | _ => false

/-- `PoweredDynamo.isRetryableTransactionError`:
`err.name === "TransactionCanceledException"
 && !/ConditionalCheckFailed/.test(err.message)
 && /TransactionConflict/.test(err.message)`.
The message's reason rendering is modelled by the reason list. -/
def isRetryableTransactionError : DynError → Bool
  | .transactionCanceled reasons =>
      !(reasons.contains .conditionalCheckFailed) && reasons.contains .transactionConflict
  | _ => false

/-- Outcome of one run of `retryError`: the returned/raised value, the
final stream cursor (number of underlying invocations already consumed),
and the `retryableError` events emitted, in order. -/
structure RetryRun (A : Type) where
  result : Except DynError A
  final : Nat
  events : List DynError
deriving Repr

/-- A stateful operation: invoking it at cursor `s` yields an outcome and
the next cursor. -/
def StatefulOp (A : Type) : Type := Nat → Except DynError A × Nat

/-- The plain stream operation: the n-th invocation returns `f n` and
advances the cursor by one. -/
def streamOp (f : Nat → Except DynError A) : StatefulOp A :=
  fun s => (f s, s + 1)

/-- `PoweredDynamo.retryError` (lines 157-176 of the source), embedded.
`isRetryable` is the classifier, `op` the wrapped `execution`, `sched` the
`retryWaitTimes` array and `t` the `tryCount` parameter.  The check
`this.retryWaitTimes[tryCount] === undefined` on a dense numeric array is
`¬ (t < sched.length)`.  On a retryable failure the event is emitted
before the schedule is consulted, so the exhausting failure is also
emitted. -/
def retryErrorS (isRetryable : DynError → Bool) (op : StatefulOp A)
    (sched : List Nat) (s : Nat) (t : Nat) : RetryRun A :=
  match op s with
  | (.ok v, s') => ⟨.ok v, s', []⟩
  | (.error e, s') =>
      if isRetryable e then
        if t < sched.length then
          let r := retryErrorS isRetryable op sched s' (t + 1)
          ⟨r.result, r.final, e :: r.events⟩
        else
          ⟨.error .maxRetriesReached, s', [e]⟩
      else
        ⟨.error e, s', []⟩
termination_by sched.length - t
decreasing_by omega

/-- `PoweredDynamo.retryInternalServerError`. -/
def retryInternalServerError (op : StatefulOp A) (sched : List Nat) (s : Nat) : RetryRun A :=
  retryErrorS isInternalServerError op sched s 0

/-- `PoweredDynamo.retryTransactionCancelledServerError`. -/
def retryTransactionCancelledServerError (op : StatefulOp A) (sched : List Nat) (s : Nat) :
    RetryRun A :=
  retryErrorS isRetryableTransactionError op sched s 0

/-- The inner executor of `transactWrite`, viewed as a stateful operation
for the outer executor: each outer attempt runs a fresh inner retry loop
(`tryCount` restarts at 0) over the raw `documentClient.transactWrite`
stream. -/
def transactWriteInnerOp (raw : Nat → Except DynError A) (sched : List Nat) : StatefulOp A :=
  fun s =>
    let r := retryInternalServerError (streamOp raw) sched s
    (r.result, r.final)

/-- `PoweredDynamo.transactWrite`: transaction-conflict retry wrapping
internal-server-error retry wrapping the raw call stream. -/
def transactWrite (raw : Nat → Except DynError A) (sched : List Nat) : RetryRun A :=
  retryTransactionCancelledServerError (transactWriteInnerOp raw sched) sched 0

/-- The value of the mutable field `retryWaitTimes` as seen at the moment
of the `t`-th failure of a retry loop (`t` = `tryCount`): the caller's
replacement history is given as the list `muts` of values (the value seen
at failure `t` is `muts[t]`), settling at `fin` from failure `muts.length`
on.  A run with no mid-flight mutation is `muts = []`. -/
def schedAt (muts : List (List Nat)) (fin : List Nat) (t : Nat) : List Nat :=
  muts.getD t fin

/-- `PoweredDynamo.retryError` again, but reading `this.retryWaitTimes`
afresh at each failure, exactly as the source does (the field access
`this.retryWaitTimes[tryCount]` is evaluated inside each recursive call,
nothing is captured at the start of the top-level call). -/
def retryErrorMut (isRetryable : DynError → Bool) (op : StatefulOp A)
    (muts : List (List Nat)) (fin : List Nat) (s t : Nat) : RetryRun A :=
  match op s with
  | (.ok v, s') => ⟨.ok v, s', []⟩
  | (.error e, s') =>
      if isRetryable e then
        if h : t < (schedAt muts fin t).length then
          let r := retryErrorMut isRetryable op muts fin s' (t + 1)
          ⟨r.result, r.final, e :: r.events⟩
        else
          ⟨.error .maxRetriesReached, s', [e]⟩
      else
        ⟨.error e, s', []⟩
termination_by (muts.map List.length).sum + fin.length + 1 - t
decreasing_by
  have hb : (schedAt muts fin t).length ≤ (muts.map List.length).sum + fin.length := by
    by_cases hm : t < muts.length
    · have h1 : schedAt muts fin t = muts[t] := List.getD_eq_getElem muts fin hm
      have h1len : (schedAt muts fin t).length = muts[t].length := by rw [h1]
      have h2 : muts[t].length ∈ muts.map List.length :=
        List.mem_map_of_mem List.length (List.getElem_mem hm)
      have h3 : muts[t].length ≤ (muts.map List.length).sum :=
        List.single_le_sum (by simp) _ h2
      omega
    · have h1 : schedAt muts fin t = fin := List.getD_eq_default muts fin (by omega)
      have h1len : (schedAt muts fin t).length = fin.length := by rw [h1]
      omega
  omega

/-- A JS object holding scalar attributes (a DynamoDB key or item),
modelled as an ordered association list of attribute name → value;
`Object.keys` order is the list order. -/
abbrev AttrMap : Type := List (String × Nat)

/-- `obj[name]` on an `AttrMap`: the value of the first pair with that
name, or `none` (JS `undefined`) when absent. -/
def attrLookup : AttrMap → String → Option Nat
  | [], _ => none
  | p :: ps, n => if p.1 = n then some p.2 else attrLookup ps n

/-- `sameKey` (lines 188-190):
`Object.keys(key1).every((k) => key2[k] === key1[k])` — every attribute of
`key1` must be present in `key2` with the same value; attributes of
`key2` absent from `key1` are not inspected. -/
def sameKey (key1 key2 : AttrMap) : Bool :=
  key1.all (fun p => attrLookup key2 p.1 == some p.2)

/-- `filterRepeatedKeys` (lines 179-186): left fold keeping the first
occurrence of each key under `sameKey`. -/
def filterRepeatedKeys (keys : List AttrMap) : List AttrMap :=
  keys.foldl
    (fun output key =>
      if output.any (fun k2 => sameKey key k2) then output else output ++ [key])
    []

/-- Consecutive chunks of `c + 1` elements (written `c + 1` so the chunk
size is positive by construction):
`for (let i = 0; i < l.length; i += c + 1) chunks.push(l.slice(i, i + c + 1))`.
`maxBatchWriteElems = 25` is `chunksOf 24`, `maxBatchGetElems = 100` is
`chunksOf 99`. -/
def chunksOf (c : Nat) (l : List α) : List (List α) :=
  if h : l.isEmpty then [] else l.take (c + 1) :: chunksOf c (l.drop (c + 1))
termination_by l.length
decreasing_by
  have hne : l ≠ [] := by simpa [List.isEmpty_iff] using h
  have hpos : 0 < l.length := List.length_pos.mpr hne
  simp only [List.length_drop]
  omega

/-- First loop of `splitBatchWriteRequestsInChunks` (lines 20-24):
flatten `RequestItems` into `(tableName, request)` pairs, per-table order
and table insertion order preserved. -/
def flattenRequests (request : List (String × List α)) : List (String × α) :=
  (request.map (fun p => p.2.map (fun e => (p.1, e)))).flatten

/-- `batchRequestMap[t] = [...(batchRequestMap[t] || []), e]` on a JS
object: update the existing entry in place, or append a new one. -/
def addEntry (m : List (String × List α)) (t : String) (e : α) : List (String × List α) :=
  if m.any (fun p => p.1 = t) then
    m.map (fun p => if p.1 = t then (p.1, p.2 ++ [e]) else p)
  else
    m ++ [(t, [e])]

/-- Second loop body of `splitBatchWriteRequestsInChunks` (lines 26-29):
regroup one flat chunk into a table → entry-list object. -/
def regroup (chunk : List (String × α)) : List (String × List α) :=
  chunk.foldl (fun m p => addEntry m p.1 p.2) []

/-- `PoweredDynamo.splitBatchWriteRequestsInChunks` (lines 17-34). -/
def splitBatchWriteRequestsInChunks (request : List (String × List α)) :
    List (List (String × List α)) :=
  (chunksOf 24 (flattenRequests request)).map regroup

/-- The entries of table `t` in a `RequestItems` object, in order. -/
def entriesFor (t : String) : List (String × List α) → List α
  | [] => []
  | p :: ps => if p.1 = t then p.2 ++ entriesFor t ps else entriesFor t ps

/-- The entries of table `t` in a flat `(table, entry)` list, in order. -/
def pairsFor (t : String) (l : List (String × α)) : List α :=
  l.filterMap (fun p => if p.1 = t then some p.2 else none)

/-- The table names of a `RequestItems`-like object. -/
def namesOf (m : List (String × β)) : List String :=
  m.map Prod.fst

/-- Total number of entries of a `RequestItems` object, across tables. -/
def batchSize (m : List (String × List α)) : Nat :=
  (m.map (fun p => p.2.length)).sum

/-- `PoweredDynamo.batchWrite` (lines 131-135), processing the chunk
list: for each chunk, `Object.assign(request, {RequestItems: batch})`
overwrites the caller's `RequestItems` with the chunk, then the chunk is
submitted under `retryInternalServerError`; a failing chunk aborts the
remaining ones.  Returns the overall result, the final value of the
caller's `RequestItems` field, and the final raw-call cursor. -/
def batchWriteAux (sched : List Nat) (raw : Nat → Except DynError Unit) (s : Nat)
    (cur : List (String × List α)) :
    List (List (String × List α)) →
      Except DynError Unit × List (String × List α) × Nat
  | [] => (.ok (), cur, s)
  | b :: bs =>
      match (retryErrorS isInternalServerError (streamOp raw) sched s 0).result with
      | .ok _ =>
          batchWriteAux sched raw
            (retryErrorS isInternalServerError (streamOp raw) sched s 0).final b bs
      | .error e =>
          (.error e, b, (retryErrorS isInternalServerError (streamOp raw) sched s 0).final)

/-- `PoweredDynamo.batchWrite` over a request: split, then submit chunks
sequentially, threading the raw batch-write outcome stream. -/
def batchWrite (sched : List Nat) (raw : Nat → Except DynError Unit)
    (request : List (String × List α)) :
    Except DynError Unit × List (String × List α) × Nat :=
  batchWriteAux sched raw 0 request (splitBatchWriteRequestsInChunks request)

/-- The batched key groups of `getList` (line 73):
`uniqueKeys.slice(i, i + maxBatchGetElems)` for `i = 0, 100, 200, ...`. -/
def getListBatches (keys : List AttrMap) : List (List AttrMap) :=
  chunksOf 99 (filterRepeatedKeys keys)

/-- `result.set(key, v)` on the result `Map`: update or append.
(The JS `Map` keys by object identity; structurally equal key objects
collapse to one entry here, which is value-faithful because every batch
writes every key.) -/
def setKey (m : List (AttrMap × Option AttrMap)) (k : AttrMap) (v : Option AttrMap) :
    List (AttrMap × Option AttrMap) :=
  if m.any (fun p => p.1 = k) then
    m.map (fun p => if p.1 = k then (k, v) else p)
  else
    m ++ [(k, v)]

/-- Lines 81-83 of the source, run on one batch's response: for EVERY
original key (not only this batch's keys!), set the result to the first
matching item of THIS batch's response items. -/
def processBatchResponse (keys : List AttrMap) (items : List AttrMap)
    (m : List (AttrMap × Option AttrMap)) : List (AttrMap × Option AttrMap) :=
  keys.foldl (fun m k => setKey m k (items.find? (fun item => sameKey k item))) m

/-- The success path of `getList` (lines 69-93): `resp j` is the batched
get response item list of batch `j`, and `order` is the order in which
the concurrent batch promises complete (each completion runs the
lines 81-83 loop). -/
def getListRun (keys : List AttrMap) (resp : Nat → List AttrMap) (order : List Nat) :
    List (AttrMap × Option AttrMap) :=
  order.foldl (fun m j => processBatchResponse keys (resp j) m) []

/-- `result.get(k)` on the final map: `some v` when the key is present
(`v = none` meaning the key was set to `undefined`), `none` when the key
was never set. -/
def lookupResult (m : List (AttrMap × Option AttrMap)) (k : AttrMap) : Option (Option AttrMap) :=
  (m.find? (fun p => p.1 = k)).map (fun p => p.2)

/-- The value the specification describes for a `getList` key: the first
match when scanning the concatenation of all batches' response items. -/
def concatScanValue (numBatches : Nat) (resp : Nat → List AttrMap) (k : AttrMap) :
    Option AttrMap :=
  (((List.range numBatches).map resp).flatten).find? (fun item => sameKey k item)

/-- `getList` with fallible batched gets: `resp j` is the outcome of the
single `documentClient.batchGet` call issued for batch `j` (the source
wraps it in no retry executor), and `order` is the order in which the
batch promises settle (for a run with `n` batches it enumerates
`0 .. n-1`).  `Promise.all` rejects with the first settled rejection, so
the call fails with the error of the first batch in `order` whose call
failed — which batch that is depends on the settle order, not on batch
indices; when every batch succeeds, the per-key loops run as in
`getListRun`, in settle order. -/
def getListF (keys : List AttrMap) (resp : Nat → Except DynError (List AttrMap))
    (order : List Nat) : Except DynError (List (AttrMap × Option AttrMap)) :=
  match order.findSome? (fun j =>
      match resp j with
      | .error e => some e
      | .ok _ => none) with
  | some e => .error e
  | none =>
      .ok (getListRun keys
        (fun j =>
          match resp j with
          | .ok items => items
          | .error _ => []) order)

/-- Modelled from the spec (§4.4 step 3), which differs from the source
here: each batched-get "individually wrapped by RetryExecutor with the
server-error classifier".  `respAttempts j i` is the outcome of attempt
`i` of batch `j`'s batched get; batch `j`'s overall outcome is its retry
executor's result, and the joint settlement (`order`) is as in
`getListF`. -/
def getListSpecRetried (keys : List AttrMap)
    (respAttempts : Nat → Nat → Except DynError (List AttrMap)) (sched : List Nat)
    (order : List Nat) : Except DynError (List (AttrMap × Option AttrMap)) :=
  match order.findSome? (fun j =>
      match (retryErrorS isInternalServerError (streamOp (respAttempts j)) sched 0 0).result with
      | .error e => some e
      | .ok _ => none) with
  | some e => .error e
  | none =>
      .ok (getListRun keys
        (fun j =>
          match (retryErrorS isInternalServerError (streamOp (respAttempts j))
              sched 0 0).result with
          | .ok items => items
          | .error _ => []) order)

/-- A scan/query input: only the `Select` attribute matters to the
count-validation logic. -/
structure ScanInput where
  TableName : String
  Select : Option String

/-- One page of a count scan/query response (`response.Count!`). -/
structure CountPage where
  Count : Nat

/-- `PoweredDynamo.sumCountResponses` (lines 45-52): fold the page
sequence, accumulating `Count`. -/
def sumCountResponses (pages : List CountPage) : Nat :=
  pages.foldl (fun count response => count + response.Count) 0

/-- `PoweredDynamo.scanCount` (lines 103-106):
`assert.equal(input.Select, 'COUNT', ...)` throws an `AssertionError`
before the page generator is built; otherwise sum the pages. -/
def scanCount (input : ScanInput) (pages : List CountPage) : Except DynError Nat :=
  if input.Select = some "COUNT" then .ok (sumCountResponses pages)
  else .error (.otherError "AssertionError")

/-- `PoweredDynamo.queryCount` (lines 108-111), same validation and fold
as `scanCount`. -/
def queryCount (input : ScanInput) (pages : List CountPage) : Except DynError Nat :=
  if input.Select = some "COUNT" then .ok (sumCountResponses pages)
  else .error (.otherError "AssertionError")

/-- 101 pairwise distinct keys `{id: 0} .. {id: 100}` — enough to span
two `getList` batches (100 + 1). -/
def manyKeys : List AttrMap :=
  (List.range 101).map (fun i => [("id", i)])

/-- Batched-get responses for `manyKeys`: batch 0's response contains the
item for the first key, batch 1's response is empty. -/
def manyResp : Nat → List AttrMap :=
  fun j => if j = 0 then [[("id", 0), ("v", 7)]] else []

theorem retryErrorS_ok (isRetryable : DynError → Bool) (op : StatefulOp A)
    (sched : List Nat) (s t : Nat) (v : A) (s' : Nat) (h : op s = (.ok v, s')) :
    retryErrorS isRetryable op sched s t = ⟨.ok v, s', []⟩ := by
  rw [retryErrorS, h]

theorem retryErrorS_error_not_retryable (isRetryable : DynError → Bool) (op : StatefulOp A)
    (sched : List Nat) (s t : Nat) (e : DynError) (s' : Nat)
    (h : op s = (.error e, s')) (hr : isRetryable e = false) :
    retryErrorS isRetryable op sched s t = ⟨.error e, s', []⟩ := by
  rw [retryErrorS, h]
  simp [hr]

theorem retryErrorS_error_retry (isRetryable : DynError → Bool) (op : StatefulOp A)
    (sched : List Nat) (s t : Nat) (e : DynError) (s' : Nat)
    (h : op s = (.error e, s')) (hr : isRetryable e = true) (ht : t < sched.length) :
    retryErrorS isRetryable op sched s t =
      ⟨(retryErrorS isRetryable op sched s' (t + 1)).result,
       (retryErrorS isRetryable op sched s' (t + 1)).final,
       e :: (retryErrorS isRetryable op sched s' (t + 1)).events⟩ := by
  rw [retryErrorS, h]
  simp [hr, ht]

theorem retryErrorS_error_exhausted (isRetryable : DynError → Bool) (op : StatefulOp A)
    (sched : List Nat) (s t : Nat) (e : DynError) (s' : Nat)
    (h : op s = (.error e, s')) (hr : isRetryable e = true) (ht : ¬ t < sched.length) :
    retryErrorS isRetryable op sched s t = ⟨.error .maxRetriesReached, s', [e]⟩ := by
  rw [retryErrorS, h]
  simp [hr, ht]

theorem retryErrorS_exhaust (isR : DynError → Bool) (err : Nat → DynError)
    (f : Nat → Except DynError A) (sched : List Nat)
    (hf : ∀ n, f n = .error (err n)) (hr : ∀ n, isR (err n) = true) :
    ∀ (k t s : Nat), sched.length - t = k →
      retryErrorS isR (streamOp f) sched s t =
        ⟨.error .maxRetriesReached, s + k + 1,
         (List.range (k + 1)).map (fun i => err (s + i))⟩ := by
  intro k
  induction k with
  | zero =>
      intro t s hk
      have ht : ¬ t < sched.length := by omega
      rw [retryErrorS_error_exhausted isR _ sched s t (err s) (s + 1)
          (by simp [streamOp, hf]) (hr s) ht]
      simp [List.range_succ]
  | succ k ih =>
      intro t s hk
      have ht : t < sched.length := by omega
      rw [retryErrorS_error_retry isR _ sched s t (err s) (s + 1)
          (by simp [streamOp, hf]) (hr s) ht]
      rw [ih (t + 1) (s + 1) (by omega)]
      simp only [RetryRun.mk.injEq]
      refine ⟨trivial, by omega, ?_⟩
      conv_rhs => rw [List.range_succ_eq_map]
      simp only [List.map_cons, List.map_map]
      congr 1
      apply List.map_congr_left
      intro i _
      simp only [Function.comp_apply]
      congr 1
      omega

theorem retryErrorS_skip (isR : DynError → Bool) (err : Nat → DynError)
    (f : Nat → Except DynError A) (sched : List Nat) :
    ∀ (k t s : Nat), t + k ≤ sched.length →
      (∀ i, i < k → f (s + i) = .error (err (s + i)) ∧ isR (err (s + i)) = true) →
      retryErrorS isR (streamOp f) sched s t =
        ⟨(retryErrorS isR (streamOp f) sched (s + k) (t + k)).result,
         (retryErrorS isR (streamOp f) sched (s + k) (t + k)).final,
         (List.range k).map (fun i => err (s + i)) ++
           (retryErrorS isR (streamOp f) sched (s + k) (t + k)).events⟩ := by
  intro k
  induction k with
  | zero =>
      intro t s _ _
      simp
  | succ k ih =>
      intro t s hk h
      have h0 := h 0 (by omega)
      have hfs : f s = .error (err s) := by simpa using h0.1
      have hrs : isR (err s) = true := by simpa using h0.2
      have ht : t < sched.length := by omega
      rw [retryErrorS_error_retry isR _ sched s t (err s) (s + 1)
          (by simp [streamOp, hfs]) hrs ht]
      have hshift : ∀ i, i < k →
          f (s + 1 + i) = .error (err (s + 1 + i)) ∧ isR (err (s + 1 + i)) = true := by
        intro i hi
        have hh := h (i + 1) (by omega)
        have hidx : s + (i + 1) = s + 1 + i := by omega
        rw [hidx] at hh
        exact hh
      rw [ih (t + 1) (s + 1) (by omega) hshift]
      have es : s + 1 + k = s + (k + 1) := by omega
      have et : t + 1 + k = t + (k + 1) := by omega
      rw [es, et]
      simp only [RetryRun.mk.injEq]
      refine ⟨trivial, trivial, ?_⟩
      conv_rhs => rw [List.range_succ_eq_map]
      simp only [List.map_cons, List.map_map, List.cons_append]
      congr 1
      congr 1
      apply List.map_congr_left
      intro i _
      simp only [Function.comp_apply]
      congr 1
      omega

/-- **C1.** For every retry schedule `sched` of length `N`:
(i) if the wrapped operation fails with a retryable error on every attempt,
the run makes exactly `N + 1` underlying attempts (the initial one plus
`N` retries, one per schedule slot) and returns `MaxRetriesReached`; the
sequence of failures — the `N + 1` underlying errors followed by the raised
`MaxRetriesReached` itself — has length `N + 2`, so the `MaxRetriesReached`
is the `(N + 2)`-th failure;
(ii) a non-retryable error raised on any attempt (here: attempt `k`, after
`k` retryable failures) propagates unchanged at once: the run stops after
that attempt, and the returned `RetryRun` is the same for every schedule
with `k ≤ sched.length`, i.e. the non-retryable failure consumes no
schedule slot. -/
theorem retry_schedule_exhaustion_and_immediate_propagation
    (A : Type) (isR : DynError → Bool) (sched : List Nat) :
    (∀ (err : Nat → DynError) (f : Nat → Except DynError A),
      (∀ n, f n = .error (err n)) →
      (∀ n, isR (err n) = true) →
      retryErrorS isR (streamOp f) sched 0 0 =
        ⟨.error .maxRetriesReached, sched.length + 1,
         (List.range (sched.length + 1)).map err⟩ ∧
      ((List.range (sched.length + 1)).map err ++ [DynError.maxRetriesReached]).length
        = sched.length + 2 ∧
      ((List.range (sched.length + 1)).map err
          ++ [DynError.maxRetriesReached]).getLast? = some .maxRetriesReached)
    ∧
    (∀ (err : Nat → DynError) (f : Nat → Except DynError A) (k : Nat) (e : DynError),
      k ≤ sched.length →
      (∀ i, i < k → f i = .error (err i) ∧ isR (err i) = true) →
      f k = .error e →
      isR e = false →
      retryErrorS isR (streamOp f) sched 0 0 =
        ⟨.error e, k + 1, (List.range k).map err⟩) := by
  constructor
  · intro err f hf hr
    refine ⟨?_, by simp, by simp⟩
    rw [retryErrorS_exhaust isR err f sched hf hr sched.length 0 0 (by omega)]
    simp only [RetryRun.mk.injEq, Nat.zero_add]
  · intro err f k e hk h hfk hre
    have hskip := retryErrorS_skip isR err f sched k 0 0 (by omega)
      (by intro i hi; simpa using h i hi)
    rw [hskip]
    have hend : retryErrorS isR (streamOp f) sched (0 + k) (0 + k) = ⟨.error e, k + 1, []⟩ := by
      have hf' : streamOp f (0 + k) = (.error e, k + 1) := by
        simp [streamOp, hfk]
      rw [retryErrorS_error_not_retryable isR _ sched (0 + k) (0 + k) e (k + 1) hf' hre]
    rw [hend]
    simp

/-- Witness for C1 at the spec's own scenario: a 3-element schedule and an
operation failing with `InternalServerError` on every attempt exhausts
after 4 attempts (1 initial + 3 retries); and a run whose second attempt
fails with a non-retryable `ValidationException` propagates it at once. -/
theorem retry_schedule_exhaustion_and_immediate_propagation_witness :
    retryErrorS isInternalServerError
        (streamOp (fun _ => (.error .internalServerError : Except DynError Unit)))
        [1, 1, 1] 0 0 =
      ⟨.error .maxRetriesReached, 4,
       [.internalServerError, .internalServerError, .internalServerError,
        .internalServerError]⟩ ∧
    retryErrorS isInternalServerError
        (streamOp (fun n => if n = 0 then (.error .internalServerError : Except DynError Unit)
          else .error (.otherError "ValidationException")))
        [1, 1, 1] 0 0 =
      ⟨.error (.otherError "ValidationException"), 2, [.internalServerError]⟩ := by
  constructor
  · have h := (retry_schedule_exhaustion_and_immediate_propagation Unit
      isInternalServerError [1, 1, 1]).1 (fun _ => .internalServerError)
      (fun _ => .error .internalServerError) (fun _ => rfl) (fun _ => rfl)
    rw [h.1]
    rfl
  · have h := (retry_schedule_exhaustion_and_immediate_propagation Unit
      isInternalServerError [1, 1, 1]).2 (fun _ => .internalServerError)
      (fun n => if n = 0 then .error .internalServerError
        else .error (.otherError "ValidationException"))
      1 (.otherError "ValidationException") (by simp)
      (by intro i hi; obtain rfl : i = 0 := Nat.lt_one_iff.mp hi; exact ⟨rfl, rfl⟩)
      rfl rfl
    rw [h]
    rfl

theorem schedAt_length_le (muts : List (List Nat)) (fin : List Nat) (t : Nat) :
    (schedAt muts fin t).length ≤ (muts.map List.length).sum + fin.length := by
  by_cases hm : t < muts.length
  · have h1 : schedAt muts fin t = muts[t] := List.getD_eq_getElem muts fin hm
    have h1len : (schedAt muts fin t).length = muts[t].length := by rw [h1]
    have h2 : muts[t].length ∈ muts.map List.length :=
      List.mem_map_of_mem List.length (List.getElem_mem hm)
    have h3 : muts[t].length ≤ (muts.map List.length).sum :=
      List.single_le_sum (by simp) _ h2
    omega
  · have h1 : schedAt muts fin t = fin := List.getD_eq_default muts fin (by omega)
    have h1len : (schedAt muts fin t).length = fin.length := by rw [h1]
    omega

theorem retryErrorMut_ok (isRetryable : DynError → Bool) (op : StatefulOp A)
    (muts : List (List Nat)) (fin : List Nat) (s t : Nat) (v : A) (s' : Nat)
    (h : op s = (.ok v, s')) :
    retryErrorMut isRetryable op muts fin s t = ⟨.ok v, s', []⟩ := by
  rw [retryErrorMut, h]

theorem retryErrorMut_error_not_retryable (isRetryable : DynError → Bool) (op : StatefulOp A)
    (muts : List (List Nat)) (fin : List Nat) (s t : Nat) (e : DynError) (s' : Nat)
    (h : op s = (.error e, s')) (hr : isRetryable e = false) :
    retryErrorMut isRetryable op muts fin s t = ⟨.error e, s', []⟩ := by
  rw [retryErrorMut, h]
  simp [hr]

theorem retryErrorMut_error_retry (isRetryable : DynError → Bool) (op : StatefulOp A)
    (muts : List (List Nat)) (fin : List Nat) (s t : Nat) (e : DynError) (s' : Nat)
    (h : op s = (.error e, s')) (hr : isRetryable e = true)
    (ht : t < (schedAt muts fin t).length) :
    retryErrorMut isRetryable op muts fin s t =
      ⟨(retryErrorMut isRetryable op muts fin s' (t + 1)).result,
       (retryErrorMut isRetryable op muts fin s' (t + 1)).final,
       e :: (retryErrorMut isRetryable op muts fin s' (t + 1)).events⟩ := by
  rw [retryErrorMut, h]
  simp [hr, ht]

theorem retryErrorMut_error_exhausted (isRetryable : DynError → Bool) (op : StatefulOp A)
    (muts : List (List Nat)) (fin : List Nat) (s t : Nat) (e : DynError) (s' : Nat)
    (h : op s = (.error e, s')) (hr : isRetryable e = true)
    (ht : ¬ t < (schedAt muts fin t).length) :
    retryErrorMut isRetryable op muts fin s t = ⟨.error .maxRetriesReached, s', [e]⟩ := by
  rw [retryErrorMut, h]
  simp [hr, ht]

theorem retryErrorMut_agreeOn (isR : DynError → Bool) (op : StatefulOp A) :
    ∀ (n : Nat) (muts muts' : List (List Nat)) (fin fin' : List Nat) (t s : Nat),
      (muts.map List.length).sum + fin.length + 1 - t ≤ n →
      (∀ u, t ≤ u → schedAt muts fin u = schedAt muts' fin' u) →
      retryErrorMut isR op muts fin s t = retryErrorMut isR op muts' fin' s t := by
  intro n
  induction n with
  | zero =>
      intro muts muts' fin fin' t s hn hag
      have hcond : ¬ t < (schedAt muts fin t).length := by
        have := schedAt_length_le muts fin t
        omega
      have hcond' : ¬ t < (schedAt muts' fin' t).length := by
        rw [← hag t (le_refl t)]
        exact hcond
      rcases hres : op s with ⟨e | v, s'⟩
      · by_cases hr : isR e
        · rw [retryErrorMut_error_exhausted isR op muts fin s t e s' hres hr hcond,
              retryErrorMut_error_exhausted isR op muts' fin' s t e s' hres hr hcond']
        · rw [retryErrorMut_error_not_retryable isR op muts fin s t e s' hres (by simpa using hr),
              retryErrorMut_error_not_retryable isR op muts' fin' s t e s' hres (by simpa using hr)]
      · rw [retryErrorMut_ok isR op muts fin s t v s' hres,
            retryErrorMut_ok isR op muts' fin' s t v s' hres]
  | succ n ih =>
      intro muts muts' fin fin' t s hn hag
      rcases hres : op s with ⟨e | v, s'⟩
      · by_cases hr : isR e
        · by_cases hc : t < (schedAt muts fin t).length
          · have hc' : t < (schedAt muts' fin' t).length := by
              rw [← hag t (le_refl t)]
              exact hc
            rw [retryErrorMut_error_retry isR op muts fin s t e s' hres hr hc,
                retryErrorMut_error_retry isR op muts' fin' s t e s' hres hr hc']
            have hrec : retryErrorMut isR op muts fin s' (t + 1) =
                retryErrorMut isR op muts' fin' s' (t + 1) := by
              apply ih
              · have := schedAt_length_le muts fin t
                omega
              · intro u hu
                exact hag u (by omega)
            rw [hrec]
          · have hc' : ¬ t < (schedAt muts' fin' t).length := by
              rw [← hag t (le_refl t)]
              exact hc
            rw [retryErrorMut_error_exhausted isR op muts fin s t e s' hres hr hc,
                retryErrorMut_error_exhausted isR op muts' fin' s t e s' hres hr hc']
        · rw [retryErrorMut_error_not_retryable isR op muts fin s t e s' hres (by simpa using hr),
              retryErrorMut_error_not_retryable isR op muts' fin' s t e s' hres (by simpa using hr)]
      · rw [retryErrorMut_ok isR op muts fin s t v s' hres,
            retryErrorMut_ok isR op muts' fin' s t v s' hres]

theorem retryErrorMut_nil (isR : DynError → Bool) (op : StatefulOp A) :
    ∀ (n : Nat) (fin : List Nat) (t s : Nat), fin.length + 1 - t ≤ n →
      retryErrorMut isR op [] fin s t = retryErrorS isR op fin s t := by
  intro n
  induction n with
  | zero =>
      intro fin t s hn
      have hcond : ¬ t < (schedAt [] fin t).length := by
        simp only [schedAt, List.getD]
        simp
        omega
      rcases hres : op s with ⟨e | v, s'⟩
      · by_cases hr : isR e
        · rw [retryErrorMut_error_exhausted isR op [] fin s t e s' hres hr hcond,
              retryErrorS_error_exhausted isR op fin s t e s' hres hr
                (by simpa [schedAt, List.getD] using hcond)]
        · rw [retryErrorMut_error_not_retryable isR op [] fin s t e s' hres (by simpa using hr),
              retryErrorS_error_not_retryable isR op fin s t e s' hres (by simpa using hr)]
      · rw [retryErrorMut_ok isR op [] fin s t v s' hres,
            retryErrorS_ok isR op fin s t v s' hres]
  | succ n ih =>
      intro fin t s hn
      have hsched : schedAt [] fin t = fin := rfl
      rcases hres : op s with ⟨e | v, s'⟩
      · by_cases hr : isR e
        · by_cases hc : t < fin.length
          · rw [retryErrorMut_error_retry isR op [] fin s t e s' hres hr (by rw [hsched]; exact hc),
                retryErrorS_error_retry isR op fin s t e s' hres hr hc]
            rw [ih fin (t + 1) s' (by omega)]
          · rw [retryErrorMut_error_exhausted isR op [] fin s t e s' hres hr
                  (by rw [hsched]; exact hc),
                retryErrorS_error_exhausted isR op fin s t e s' hres hr hc]
        · rw [retryErrorMut_error_not_retryable isR op [] fin s t e s' hres (by simpa using hr),
              retryErrorS_error_not_retryable isR op fin s t e s' hres (by simpa using hr)]
      · rw [retryErrorMut_ok isR op [] fin s t v s' hres,
            retryErrorS_ok isR op fin s t v s' hres]

/-- **C9 (amended).** The in-flight retry loop does not capture the
schedule at call start: `retryError` re-reads `this.retryWaitTimes` at
every failure.  Consequently (i) from the `t`-th failure on, the loop's
behaviour depends only on the schedule values current at failures `t` and
later — two replacement histories agreeing from `t` on give identical
runs, whatever their earlier (e.g. call-start) values were; and (ii) a
top-level call during which no replacement happens behaves exactly as the
fixed-schedule loop, so a replacement does apply to subsequent calls. -/
theorem retry_inflight_follows_current_schedule (A : Type)
    (isR : DynError → Bool) (op : StatefulOp A) :
    (∀ (muts muts' : List (List Nat)) (fin fin' : List Nat) (t s : Nat),
      (∀ u, t ≤ u → schedAt muts fin u = schedAt muts' fin' u) →
      retryErrorMut isR op muts fin s t = retryErrorMut isR op muts' fin' s t)
    ∧
    (∀ (fin : List Nat) (t s : Nat),
      retryErrorMut isR op [] fin s t = retryErrorS isR op fin s t) := by
  constructor
  · intro muts muts' fin fin' t s hag
    exact retryErrorMut_agreeOn isR op
      ((muts.map List.length).sum + fin.length + 1 - t) muts muts' fin fin' t s
      (le_refl _) hag
  · intro fin t s
    exact retryErrorMut_nil isR op (fin.length + 1 - t) fin t s (le_refl _)

/-- **C9 (counterexample).** The claim that an in-flight loop behaves as
if it had captured the schedule current at call start is false: with the
schedule `[100, 500, 1000]` at call start, replaced by `[]` after the
first failure, and an operation failing twice with `InternalServerError`
then succeeding, the actual loop raises `MaxRetriesReached` after 2
attempts, while the captured-at-start loop would have returned success
after 3 attempts. -/
theorem retry_schedule_capture_counterexample :
    retryErrorMut isInternalServerError
        (streamOp (fun n => if n < 2 then (.error .internalServerError : Except DynError Unit)
          else .ok ()))
        [[100, 500, 1000]] [] 0 0 =
      ⟨.error .maxRetriesReached, 2, [.internalServerError, .internalServerError]⟩ ∧
    retryErrorS isInternalServerError
        (streamOp (fun n => if n < 2 then (.error .internalServerError : Except DynError Unit)
          else .ok ()))
        (schedAt [[100, 500, 1000]] [] 0) 0 0 =
      ⟨.ok (), 3, [.internalServerError, .internalServerError]⟩ ∧
    retryErrorMut isInternalServerError
        (streamOp (fun n => if n < 2 then (.error .internalServerError : Except DynError Unit)
          else .ok ()))
        [[100, 500, 1000]] [] 0 0 ≠
      retryErrorS isInternalServerError
        (streamOp (fun n => if n < 2 then (.error .internalServerError : Except DynError Unit)
          else .ok ()))
        (schedAt [[100, 500, 1000]] [] 0) 0 0 := by
  refine ⟨?_, ?_, ?_⟩
  · rw [retryErrorMut_error_retry isInternalServerError _ [[100, 500, 1000]] [] 0 0
        .internalServerError 1 rfl rfl (by decide)]
    rw [retryErrorMut_error_exhausted isInternalServerError _ [[100, 500, 1000]] [] 1 1
        .internalServerError 2 rfl rfl (by decide)]
  · rw [retryErrorS_error_retry isInternalServerError _ (schedAt [[100, 500, 1000]] [] 0) 0 0
        .internalServerError 1 rfl rfl (by decide)]
    rw [retryErrorS_error_retry isInternalServerError _ (schedAt [[100, 500, 1000]] [] 0) 1 1
        .internalServerError 2 rfl rfl (by decide)]
    rw [retryErrorS_ok isInternalServerError _ (schedAt [[100, 500, 1000]] [] 0) 2 2 () 3 rfl]
  · rw [retryErrorMut_error_retry isInternalServerError _ [[100, 500, 1000]] [] 0 0
        .internalServerError 1 rfl rfl (by decide)]
    rw [retryErrorMut_error_exhausted isInternalServerError _ [[100, 500, 1000]] [] 1 1
        .internalServerError 2 rfl rfl (by decide)]
    rw [retryErrorS_error_retry isInternalServerError _ (schedAt [[100, 500, 1000]] [] 0) 0 0
        .internalServerError 1 rfl rfl (by decide)]
    rw [retryErrorS_error_retry isInternalServerError _ (schedAt [[100, 500, 1000]] [] 0) 1 1
        .internalServerError 2 rfl rfl (by decide)]
    rw [retryErrorS_ok isInternalServerError _ (schedAt [[100, 500, 1000]] [] 0) 2 2 () 3 rfl]
    simp

/-- Witness for the amended C9: two histories that differ in the value
seen at the first failure but agree from the second failure on give the
same in-flight behaviour, and a mutation-free run equals the
fixed-schedule loop. -/
theorem retry_inflight_follows_current_schedule_witness :
    retryErrorMut isInternalServerError
        (streamOp (fun _ => (.error .internalServerError : Except DynError Unit)))
        [[1], [2, 3]] [4] 0 1 =
      retryErrorMut isInternalServerError
        (streamOp (fun _ => (.error .internalServerError : Except DynError Unit)))
        [[9], [2, 3]] [4] 0 1 ∧
    retryErrorMut isInternalServerError
        (streamOp (fun _ => (.error .internalServerError : Except DynError Unit)))
        [] [4] 0 0 =
      retryErrorS isInternalServerError
        (streamOp (fun _ => (.error .internalServerError : Except DynError Unit)))
        [4] 0 0 := by
  constructor
  · apply (retry_inflight_follows_current_schedule Unit isInternalServerError _).1
    intro u hu
    rcases u with _ | _ | u
    · exact absurd hu (by decide)
    · rfl
    · rfl
  · exact (retry_inflight_follows_current_schedule Unit isInternalServerError _).2 [4] 0 0

/-- **C4.** (i) A transaction cancellation whose reason list contains a
conditional-check failure — in particular one containing only that — is
classified non-retryable, so `transactWrite` propagates it immediately
after a single raw call; (ii) a cancellation containing a
transaction-conflict reason and no conditional-check failure is
classified retryable; (iii) a transactional write that fails once with
such a conflict and then succeeds resolves successfully after exactly one
retry (two raw calls in total, the inner server-error executor passing
the cancellation straight through to the outer conflict executor). -/
theorem transactWrite_conflict_retried_condcheck_not (A : Type) (sched : List Nat) :
    (∀ reasons : List CancelReason,
      reasons.contains CancelReason.conditionalCheckFailed = true →
      isRetryableTransactionError (.transactionCanceled reasons) = false)
    ∧
    (∀ reasons : List CancelReason,
      reasons.contains CancelReason.transactionConflict = true →
      reasons.contains CancelReason.conditionalCheckFailed = false →
      isRetryableTransactionError (.transactionCanceled reasons) = true)
    ∧
    (∀ (raw : Nat → Except DynError A) (v : A) (reasons : List CancelReason),
      reasons.contains CancelReason.transactionConflict = true →
      reasons.contains CancelReason.conditionalCheckFailed = false →
      raw 0 = .error (.transactionCanceled reasons) →
      raw 1 = .ok v →
      1 ≤ sched.length →
      transactWrite raw sched = ⟨.ok v, 2, [.transactionCanceled reasons]⟩)
    ∧
    (∀ (raw : Nat → Except DynError A) (reasons : List CancelReason),
      reasons.contains CancelReason.conditionalCheckFailed = true →
      raw 0 = .error (.transactionCanceled reasons) →
      transactWrite raw sched = ⟨.error (.transactionCanceled reasons), 1, []⟩) := by
  refine ⟨?_, ?_, ?_, ?_⟩
  · intro reasons h
    have h' : CancelReason.conditionalCheckFailed ∈ reasons := by simpa using h
    simp only [isRetryableTransactionError]
    simp
    intro hn
    exact absurd h' hn
  · intro reasons hc hcc
    have hc' : CancelReason.transactionConflict ∈ reasons := by simpa using hc
    have hcc' : CancelReason.conditionalCheckFailed ∉ reasons := by simpa using hcc
    simp only [isRetryableTransactionError]
    simp
    exact ⟨hcc', hc'⟩
  · intro raw v reasons hc hcc hraw0 hraw1 hlen
    have hinner0 : transactWriteInnerOp raw sched 0 = (.error (.transactionCanceled reasons), 1) := by
      simp only [transactWriteInnerOp, retryInternalServerError]
      rw [retryErrorS_error_not_retryable isInternalServerError (streamOp raw) sched 0 0
          (.transactionCanceled reasons) 1 (by simp [streamOp, hraw0]) rfl]
    have hinner1 : transactWriteInnerOp raw sched 1 = (.ok v, 2) := by
      simp only [transactWriteInnerOp, retryInternalServerError]
      rw [retryErrorS_ok isInternalServerError (streamOp raw) sched 1 0 v 2
          (by simp [streamOp, hraw1])]
    have hc' : CancelReason.transactionConflict ∈ reasons := by simpa using hc
    have hcc' : CancelReason.conditionalCheckFailed ∉ reasons := by simpa using hcc
    have hrt : isRetryableTransactionError (.transactionCanceled reasons) = true := by
      simp only [isRetryableTransactionError]
      simp
      exact ⟨hcc', hc'⟩
    simp only [transactWrite, retryTransactionCancelledServerError]
    rw [retryErrorS_error_retry isRetryableTransactionError (transactWriteInnerOp raw sched)
        sched 0 0 (.transactionCanceled reasons) 1 hinner0 hrt (by omega)]
    rw [retryErrorS_ok isRetryableTransactionError (transactWriteInnerOp raw sched)
        sched 1 1 v 2 hinner1]
  · intro raw reasons hccf hraw0
    have hinner0 : transactWriteInnerOp raw sched 0 = (.error (.transactionCanceled reasons), 1) := by
      simp only [transactWriteInnerOp, retryInternalServerError]
      rw [retryErrorS_error_not_retryable isInternalServerError (streamOp raw) sched 0 0
          (.transactionCanceled reasons) 1 (by simp [streamOp, hraw0]) rfl]
    have hccf' : CancelReason.conditionalCheckFailed ∈ reasons := by simpa using hccf
    have hrt : isRetryableTransactionError (.transactionCanceled reasons) = false := by
      simp only [isRetryableTransactionError]
      simp
      intro hn
      exact absurd hccf' hn
    simp only [transactWrite, retryTransactionCancelledServerError]
    rw [retryErrorS_error_not_retryable isRetryableTransactionError (transactWriteInnerOp raw sched)
        sched 0 0 (.transactionCanceled reasons) 1 hinner0 hrt]

/-- Witness for C4 at the test scenarios of the repository: a
transactional write failing once with a conflict-only cancellation then
succeeding resolves after one retry; one failing with a
conditional-check-failure cancellation propagates it on the first call. -/
theorem transactWrite_conflict_retried_condcheck_not_witness :
    isRetryableTransactionError
        (.transactionCanceled [CancelReason.conditionalCheckFailed]) = false ∧
    isRetryableTransactionError
        (.transactionCanceled [CancelReason.transactionConflict]) = true ∧
    transactWrite
        (fun n => if n = 0
          then (.error (.transactionCanceled [CancelReason.transactionConflict]) :
            Except DynError Unit)
          else .ok ())
        [100, 500, 1000] =
      ⟨.ok (), 2, [.transactionCanceled [CancelReason.transactionConflict]]⟩ ∧
    transactWrite
        (fun _ => (.error (.transactionCanceled [CancelReason.conditionalCheckFailed]) :
          Except DynError Unit))
        [100, 500, 1000] =
      ⟨.error (.transactionCanceled [CancelReason.conditionalCheckFailed]), 1, []⟩ := by
  have h := transactWrite_conflict_retried_condcheck_not Unit [100, 500, 1000]
  refine ⟨h.1 _ (by decide), h.2.1 _ (by decide) (by decide), ?_, ?_⟩
  · exact h.2.2.1 _ () [CancelReason.transactionConflict] (by decide) (by decide) rfl rfl
      (by decide)
  · exact h.2.2.2 _ [CancelReason.conditionalCheckFailed] (by decide) rfl

/-- **C7 (amended).** When the schedule is exhausted the raised
`MaxRetriesReached` error does not wrap or identify the triggering cause:
`new MaxRetriesReached()` is constructed with no argument, so the raised
value is the same whatever the last underlying error was (two
always-failing runs with different causes end in equal results).  The
last cause is identifiable only from the `retryableError` events: the
last event emitted before the raise is the triggering error. -/
theorem maxRetries_terminal_error_carries_no_cause (A : Type) (isR : DynError → Bool)
    (sched : List Nat) :
    ∀ (err err' : Nat → DynError) (f f' : Nat → Except DynError A),
      (∀ n, f n = .error (err n)) → (∀ n, isR (err n) = true) →
      (∀ n, f' n = .error (err' n)) → (∀ n, isR (err' n) = true) →
      (retryErrorS isR (streamOp f) sched 0 0).result = .error .maxRetriesReached ∧
      (retryErrorS isR (streamOp f) sched 0 0).result =
        (retryErrorS isR (streamOp f') sched 0 0).result ∧
      (retryErrorS isR (streamOp f) sched 0 0).events.getLast? = some (err sched.length) := by
  intro err err' f f' hf hr hf' hr'
  rw [retryErrorS_exhaust isR err f sched hf hr sched.length 0 0 (by omega)]
  rw [retryErrorS_exhaust isR err' f' sched hf' hr' sched.length 0 0 (by omega)]
  refine ⟨rfl, rfl, ?_⟩
  rw [List.range_succ, List.map_append]
  simp

/-- **C7 (counterexample).** The raised `MaxRetriesReached` does not
wrap/identify the last underlying cause: two exhausted runs whose
triggering causes are different cancellation errors return identical
results, so the raised error cannot identify either cause. -/
theorem maxRetries_no_cause_counterexample :
    retryErrorS isRetryableTransactionError
        (streamOp (fun _ =>
          (.error (.transactionCanceled [CancelReason.transactionConflict]) :
            Except DynError Unit))) [1] 0 0 =
      ⟨.error .maxRetriesReached, 2,
       [.transactionCanceled [CancelReason.transactionConflict],
        .transactionCanceled [CancelReason.transactionConflict]]⟩ ∧
    retryErrorS isRetryableTransactionError
        (streamOp (fun _ =>
          (.error (.transactionCanceled
            [CancelReason.transactionConflict, CancelReason.otherReason]) :
            Except DynError Unit))) [1] 0 0 =
      ⟨.error .maxRetriesReached, 2,
       [.transactionCanceled [CancelReason.transactionConflict, CancelReason.otherReason],
        .transactionCanceled [CancelReason.transactionConflict, CancelReason.otherReason]]⟩ ∧
    (retryErrorS isRetryableTransactionError
        (streamOp (fun _ =>
          (.error (.transactionCanceled [CancelReason.transactionConflict]) :
            Except DynError Unit))) [1] 0 0).result =
      (retryErrorS isRetryableTransactionError
        (streamOp (fun _ =>
          (.error (.transactionCanceled
            [CancelReason.transactionConflict, CancelReason.otherReason]) :
            Except DynError Unit))) [1] 0 0).result ∧
    DynError.transactionCanceled [CancelReason.transactionConflict] ≠
      DynError.transactionCanceled
        [CancelReason.transactionConflict, CancelReason.otherReason] := by
  have h1 := retryErrorS_exhaust isRetryableTransactionError
    (fun _ => .transactionCanceled [CancelReason.transactionConflict])
    (fun _ => (.error (.transactionCanceled [CancelReason.transactionConflict]) :
      Except DynError Unit))
    [1] (fun _ => rfl) (fun _ => rfl) 1 0 0 (by decide)
  have h2 := retryErrorS_exhaust isRetryableTransactionError
    (fun _ => .transactionCanceled
      [CancelReason.transactionConflict, CancelReason.otherReason])
    (fun _ => (.error (.transactionCanceled
      [CancelReason.transactionConflict, CancelReason.otherReason]) :
      Except DynError Unit))
    [1] (fun _ => rfl) (fun _ => rfl) 1 0 0 (by decide)
  refine ⟨?_, ?_, ?_, by decide⟩
  · rw [h1]
    rfl
  · rw [h2]
    rfl
  · rw [h1, h2]

/-- Witness for the amended C7: with a one-slot schedule and an operation
always failing with a conflict cancellation, the run ends in
`MaxRetriesReached`, equal to the result of a run with a different cause,
and the last emitted event is the triggering cause. -/
theorem maxRetries_terminal_error_carries_no_cause_witness :
    (retryErrorS isRetryableTransactionError
        (streamOp (fun _ =>
          (.error (.transactionCanceled [CancelReason.transactionConflict]) :
            Except DynError Unit))) [1] 0 0).result = .error .maxRetriesReached ∧
    (retryErrorS isRetryableTransactionError
        (streamOp (fun _ =>
          (.error (.transactionCanceled [CancelReason.transactionConflict]) :
            Except DynError Unit))) [1] 0 0).result =
      (retryErrorS isRetryableTransactionError
        (streamOp (fun _ =>
          (.error (.transactionCanceled
            [CancelReason.transactionConflict, CancelReason.otherReason]) :
            Except DynError Unit))) [1] 0 0).result ∧
    (retryErrorS isRetryableTransactionError
        (streamOp (fun _ =>
          (.error (.transactionCanceled [CancelReason.transactionConflict]) :
            Except DynError Unit))) [1] 0 0).events.getLast? =
      some (.transactionCanceled [CancelReason.transactionConflict]) :=
  maxRetries_terminal_error_carries_no_cause Unit isRetryableTransactionError [1]
    (fun _ => .transactionCanceled [CancelReason.transactionConflict])
    (fun _ => .transactionCanceled
      [CancelReason.transactionConflict, CancelReason.otherReason])
    (fun _ => (.error (.transactionCanceled [CancelReason.transactionConflict]) :
      Except DynError Unit))
    (fun _ => (.error (.transactionCanceled
      [CancelReason.transactionConflict, CancelReason.otherReason]) :
      Except DynError Unit))
    (fun _ => rfl) (fun _ => rfl) (fun _ => rfl) (fun _ => rfl)

theorem chunksOf_nil (c : Nat) : chunksOf c ([] : List α) = [] := by
  rw [chunksOf]
  simp

theorem chunksOf_cons (c : Nat) (l : List α) (h : l ≠ []) :
    chunksOf c l = l.take (c + 1) :: chunksOf c (l.drop (c + 1)) := by
  rw [chunksOf]
  simp [h]

theorem chunksOf_flatten (c : Nat) :
    ∀ (n : Nat) (l : List α), l.length ≤ n → (chunksOf c l).flatten = l := by
  intro n
  induction n with
  | zero =>
      intro l h
      have hl : l = [] := List.length_eq_zero.mp (by omega)
      subst hl
      rw [chunksOf_nil]
      rfl
  | succ n ih =>
      intro l h
      by_cases hl : l = []
      · subst hl
        rw [chunksOf_nil]
        rfl
      · rw [chunksOf_cons c l hl]
        have hlen : 0 < l.length := List.length_pos.mpr hl
        rw [List.flatten_cons, ih (l.drop (c + 1)) (by simp; omega)]
        exact List.take_append_drop (c + 1) l

theorem chunksOf_batch_le (c : Nat) :
    ∀ (n : Nat) (l : List α), l.length ≤ n → ∀ b ∈ chunksOf c l, b.length ≤ c + 1 := by
  intro n
  induction n with
  | zero =>
      intro l h b hb
      have hl : l = [] := List.length_eq_zero.mp (by omega)
      subst hl
      rw [chunksOf_nil] at hb
      cases hb
  | succ n ih =>
      intro l h b hb
      by_cases hl : l = []
      · subst hl
        rw [chunksOf_nil] at hb
        cases hb
      · rw [chunksOf_cons c l hl] at hb
        rw [List.mem_cons] at hb
        rcases hb with hb | hb
        · subst hb
          simp
        · exact ih (l.drop (c + 1)) (by simp; omega) b hb

theorem chunksOf24_length :
    ∀ (n : Nat) (l : List α), l.length ≤ n →
      (chunksOf 24 l).length = (l.length + 24) / 25 := by
  intro n
  induction n with
  | zero =>
      intro l h
      have hl : l = [] := List.length_eq_zero.mp (by omega)
      subst hl
      rw [chunksOf_nil]
      simp
  | succ n ih =>
      intro l h
      by_cases hl : l = []
      · subst hl
        rw [chunksOf_nil]
        simp
      · rw [chunksOf_cons 24 l hl]
        have hlen : 0 < l.length := List.length_pos.mpr hl
        rw [List.length_cons, ih (l.drop 25) (by simp; omega)]
        simp only [List.length_drop]
        omega

theorem entriesFor_append (t : String) (m₁ m₂ : List (String × List α)) :
    entriesFor t (m₁ ++ m₂) = entriesFor t m₁ ++ entriesFor t m₂ := by
  induction m₁ with
  | nil => rfl
  | cons p ps ih =>
      simp only [List.cons_append, entriesFor]
      by_cases hp : p.1 = t
      · simp [hp, ih, List.append_assoc]
      · simp [hp, ih]

theorem entriesFor_eq_nil_of_not_mem (t : String) (m : List (String × List α))
    (h : t ∉ namesOf m) : entriesFor t m = [] := by
  induction m with
  | nil => rfl
  | cons p ps ih =>
      simp only [namesOf, List.map_cons, List.mem_cons] at h
      push_neg at h
      simp only [entriesFor]
      rw [if_neg (by exact fun hc => h.1 hc.symm)]
      exact ih (by simpa [namesOf] using h.2)

theorem map_update_id (t : String) (e : α) (m : List (String × List α))
    (h : t ∉ namesOf m) :
    m.map (fun p => if p.1 = t then (p.1, p.2 ++ [e]) else p) = m := by
  induction m with
  | nil => rfl
  | cons p ps ih =>
      simp only [namesOf, List.map_cons, List.mem_cons] at h
      push_neg at h
      simp only [List.map_cons]
      rw [if_neg (by exact fun hc => h.1 hc.symm)]
      rw [ih (by simpa [namesOf] using h.2)]

theorem namesOf_addEntry_mem (m : List (String × List α)) (t : String) (e : α)
    (h : t ∈ namesOf m) :
    namesOf (addEntry m t e) = namesOf m := by
  have hany : m.any (fun p => p.1 = t) = true := by
    simp only [List.any_eq_true, decide_eq_true_eq]
    simp only [namesOf, List.mem_map] at h
    obtain ⟨p, hp, hpt⟩ := h
    exact ⟨p, hp, hpt⟩
  simp only [addEntry, hany, if_true, namesOf, List.map_map]
  apply List.map_congr_left
  intro p _
  by_cases hp : p.1 = t
  · simp [hp]
  · simp [hp]

theorem namesOf_addEntry_not_mem (m : List (String × List α)) (t : String) (e : α)
    (h : t ∉ namesOf m) :
    namesOf (addEntry m t e) = namesOf m ++ [t] := by
  have hany : m.any (fun p => p.1 = t) = false := by
    simp only [List.any_eq_false, decide_eq_true_eq]
    intro p hp hpt
    exact h (by simp only [namesOf, List.mem_map]; exact ⟨p, hp, hpt⟩)
  simp [addEntry, hany, namesOf]

theorem addEntry_nodup (m : List (String × List α)) (t : String) (e : α)
    (h : (namesOf m).Nodup) : (namesOf (addEntry m t e)).Nodup := by
  by_cases hm : t ∈ namesOf m
  · rw [namesOf_addEntry_mem m t e hm]
    exact h
  · rw [namesOf_addEntry_not_mem m t e hm]
    simp [List.nodup_append, h, hm]

theorem entriesFor_addEntry (t t' : String) (e : α) (m : List (String × List α))
    (h : (namesOf m).Nodup) :
    entriesFor t (addEntry m t' e) = entriesFor t m ++ (if t' = t then [e] else []) := by
  by_cases hm : t' ∈ namesOf m
  · have hany : m.any (fun p => p.1 = t') = true := by
      simp only [List.any_eq_true, decide_eq_true_eq]
      simp only [namesOf, List.mem_map] at hm
      obtain ⟨p, hp, hpt⟩ := hm
      exact ⟨p, hp, hpt⟩
    simp only [addEntry, hany, if_true]
    induction m with
    | nil => simp [namesOf] at hm
    | cons p ps ih =>
        simp only [namesOf, List.map_cons, List.nodup_cons] at h
        by_cases hp : p.1 = t'
        · have hps : t' ∉ namesOf ps := by
            rw [← hp]
            exact fun hc => h.1 (by simpa [namesOf] using hc)
          rw [List.map_cons, if_pos hp, map_update_id t' e ps hps]
          simp only [entriesFor]
          by_cases hpt : p.1 = t
          · have ht't : t' = t := by rw [← hp, hpt]
            have hEnil : entriesFor t ps = [] := by
              apply entriesFor_eq_nil_of_not_mem
              rw [← hpt, hp]
              exact hps
            simp [hpt, ht't, hEnil]
          · have ht't : ¬ t' = t := by rw [← hp]; exact hpt
            simp [hpt, ht't]
        · have hm' : t' ∈ namesOf ps := by
            simp only [namesOf, List.mem_map] at hm ⊢
            rcases hm with ⟨q, hq, hqt⟩
            rcases List.mem_cons.mp hq with hq2 | hq2
            · exact absurd (hq2 ▸ hqt) hp
            · exact ⟨q, hq2, hqt⟩
          have hany' : ps.any (fun q => q.1 = t') = true := by
            simp only [List.any_eq_true, decide_eq_true_eq]
            simp only [namesOf, List.mem_map] at hm'
            obtain ⟨q, hq, hqt⟩ := hm'
            exact ⟨q, hq, hqt⟩
          rw [List.map_cons, if_neg hp]
          simp only [entriesFor]
          by_cases hpt : p.1 = t
          · simp only [hpt, if_true]
            rw [ih h.2 hm' hany', List.append_assoc]
          · simp only [hpt, if_false]
            exact ih h.2 hm' hany'
  · have hany : m.any (fun p => p.1 = t') = false := by
      simp only [List.any_eq_false, decide_eq_true_eq]
      intro p hp hpt
      exact hm (by simp only [namesOf, List.mem_map]; exact ⟨p, hp, hpt⟩)
    simp only [addEntry, hany, Bool.false_eq_true, if_false]
    rw [entriesFor_append]
    by_cases ht : t' = t
    · simp [entriesFor, ht]
    · simp [entriesFor, ht]

theorem batchSize_append (m₁ m₂ : List (String × List α)) :
    batchSize (m₁ ++ m₂) = batchSize m₁ + batchSize m₂ := by
  simp [batchSize]

theorem batchSize_addEntry (t : String) (e : α) (m : List (String × List α))
    (h : (namesOf m).Nodup) :
    batchSize (addEntry m t e) = batchSize m + 1 := by
  by_cases hm : t ∈ namesOf m
  · have hany : m.any (fun p => p.1 = t) = true := by
      simp only [List.any_eq_true, decide_eq_true_eq]
      simp only [namesOf, List.mem_map] at hm
      obtain ⟨p, hp, hpt⟩ := hm
      exact ⟨p, hp, hpt⟩
    simp only [addEntry, hany, if_true]
    induction m with
    | nil => simp [namesOf] at hm
    | cons p ps ih =>
        simp only [namesOf, List.map_cons, List.nodup_cons] at h
        by_cases hp : p.1 = t
        · have hps : t ∉ namesOf ps := by
            rw [← hp]
            exact fun hc => h.1 (by simpa [namesOf] using hc)
          rw [List.map_cons, if_pos hp, map_update_id t e ps hps]
          simp [batchSize]
          omega
        · have hm' : t ∈ namesOf ps := by
            simp only [namesOf, List.mem_map] at hm ⊢
            rcases hm with ⟨q, hq, hqt⟩
            rcases List.mem_cons.mp hq with hq2 | hq2
            · exact absurd (hq2 ▸ hqt) hp
            · exact ⟨q, hq2, hqt⟩
          have hany' : ps.any (fun q => q.1 = t) = true := by
            simp only [List.any_eq_true, decide_eq_true_eq]
            simp only [namesOf, List.mem_map] at hm'
            obtain ⟨q, hq, hqt⟩ := hm'
            exact ⟨q, hq, hqt⟩
          rw [List.map_cons, if_neg hp]
          have ihv := ih h.2 hm' hany'
          simp only [batchSize, List.map_cons, List.sum_cons] at ihv ⊢
          omega
  · have hany : m.any (fun p => p.1 = t) = false := by
      simp only [List.any_eq_false, decide_eq_true_eq]
      intro p hp hpt
      exact hm (by simp only [namesOf, List.mem_map]; exact ⟨p, hp, hpt⟩)
    simp only [addEntry, hany, Bool.false_eq_true, if_false]
    rw [batchSize_append]
    simp [batchSize]

theorem regroup_foldl (t : String) :
    ∀ (chunk : List (String × α)) (m : List (String × List α)), (namesOf m).Nodup →
      entriesFor t (chunk.foldl (fun m p => addEntry m p.1 p.2) m)
          = entriesFor t m ++ pairsFor t chunk ∧
      batchSize (chunk.foldl (fun m p => addEntry m p.1 p.2) m)
          = batchSize m + chunk.length ∧
      (namesOf (chunk.foldl (fun m p => addEntry m p.1 p.2) m)).Nodup := by
  intro chunk
  induction chunk with
  | nil =>
      intro m h
      simp [pairsFor, h]
  | cons p chunk ih =>
      intro m h
      simp only [List.foldl_cons]
      have hnd : (namesOf (addEntry m p.1 p.2)).Nodup := addEntry_nodup m p.1 p.2 h
      obtain ⟨ih1, ih2, ih3⟩ := ih (addEntry m p.1 p.2) hnd
      refine ⟨?_, ?_, ih3⟩
      · rw [ih1, entriesFor_addEntry t p.1 p.2 m h]
        simp only [pairsFor, List.filterMap_cons]
        by_cases hp : p.1 = t
        · simp [hp, pairsFor, List.append_assoc]
        · simp [hp, pairsFor]
      · rw [ih2, batchSize_addEntry p.1 p.2 m h]
        simp
        omega

theorem regroup_entriesFor (t : String) (chunk : List (String × α)) :
    entriesFor t (regroup chunk) = pairsFor t chunk := by
  have h := (regroup_foldl t chunk [] (by simp [namesOf])).1
  simpa [regroup, entriesFor] using h

theorem regroup_size (chunk : List (String × α)) :
    batchSize (regroup chunk) = chunk.length := by
  have h := (regroup_foldl "" chunk [] (by simp [namesOf])).2.1
  simpa [regroup, batchSize] using h

theorem pairsFor_flattenRequests (t : String) (r : List (String × List α)) :
    pairsFor t (flattenRequests r) = entriesFor t r := by
  induction r with
  | nil => rfl
  | cons p r ih =>
      simp only [flattenRequests, List.map_cons, List.flatten_cons]
      rw [show pairsFor t ((p.2.map (fun e => (p.1, e)))
            ++ (r.map (fun q => q.2.map (fun e => (q.1, e)))).flatten)
          = pairsFor t (p.2.map (fun e => (p.1, e)))
            ++ pairsFor t (flattenRequests r) from by
        simp [pairsFor, flattenRequests, List.filterMap_append]]
      rw [ih]
      simp only [entriesFor]
      by_cases hp : p.1 = t
      · simp only [pairsFor, List.filterMap_map, hp, if_pos]
        rw [show ((fun q : String × α => if q.1 = t then some q.2 else none)
              ∘ fun e : α => ((t : String), e)) = fun e : α => some e from by
            funext e
            simp]
        simp
      · simp only [pairsFor, List.filterMap_map, hp, if_neg]
        rw [show ((fun q : String × α => if q.1 = t then some q.2 else none)
              ∘ fun e : α => (p.1, e)) = fun _ : α => none from by
            funext e
            simp [hp]]
        simp

theorem flattenRequests_length (r : List (String × List α)) :
    (flattenRequests r).length = batchSize r := by
  simp only [flattenRequests, batchSize, List.length_flatten, List.map_map]
  congr 1
  apply List.map_congr_left
  intro p _
  simp

/-- **C3.** Splitting a batch-write request of `M` total entries produces
exactly `⌈M / 25⌉` batches, each holding at most 25 entries in total
across its tables, and concatenating the batches' per-table entry lists
in batch order reproduces the input's per-table entry order exactly. -/
theorem splitBatchWrite_chunking (request : List (String × List α)) :
    (splitBatchWriteRequestsInChunks request).length = (batchSize request + 24) / 25 ∧
    (∀ b ∈ splitBatchWriteRequestsInChunks request, batchSize b ≤ 25) ∧
    (∀ t : String,
      ((splitBatchWriteRequestsInChunks request).map (entriesFor t)).flatten
        = entriesFor t request) := by
  refine ⟨?_, ?_, ?_⟩
  · simp only [splitBatchWriteRequestsInChunks, List.length_map]
    rw [chunksOf24_length (flattenRequests request).length _ (le_refl _),
        flattenRequests_length]
  · intro b hb
    simp only [splitBatchWriteRequestsInChunks, List.mem_map] at hb
    obtain ⟨chunk, hchunk, rfl⟩ := hb
    rw [regroup_size]
    have := chunksOf_batch_le 24 (flattenRequests request).length _ (le_refl _) chunk hchunk
    omega
  · intro t
    simp only [splitBatchWriteRequestsInChunks, List.map_map]
    have hcomp : List.map (entriesFor t ∘ regroup) (chunksOf 24 (flattenRequests request))
        = List.map (pairsFor t) (chunksOf 24 (flattenRequests request)) := by
      apply List.map_congr_left
      intro chunk _
      exact regroup_entriesFor t chunk
    rw [hcomp]
    have hflat : (List.map (pairsFor t) (chunksOf 24 (flattenRequests request))).flatten
        = pairsFor t ((chunksOf 24 (flattenRequests request)).flatten) := by
      show (List.map (List.filterMap (fun p : String × α => if p.1 = t then some p.2 else none))
          (chunksOf 24 (flattenRequests request))).flatten
        = ((chunksOf 24 (flattenRequests request)).flatten).filterMap
            (fun p : String × α => if p.1 = t then some p.2 else none)
      rw [List.filterMap_flatten]
    rw [hflat, chunksOf_flatten 24 (flattenRequests request).length _ (le_refl _),
        pairsFor_flattenRequests]

/-- Witness for C3 at a concrete two-table request of 3 entries: one
batch, within the ceiling, per-table order reproduced. -/
theorem splitBatchWrite_chunking_witness :
    (splitBatchWriteRequestsInChunks
        ([("A", [1, 2]), ("B", [3])] : List (String × List Nat))).length = 1 ∧
    batchSize ([("A", [1, 2]), ("B", [3])] : List (String × List Nat)) ≤ 25 ∧
    ((splitBatchWriteRequestsInChunks
        ([("A", [1, 2]), ("B", [3])] : List (String × List Nat))).map
      (entriesFor "A")).flatten = [1, 2] := by
  have h := splitBatchWrite_chunking ([("A", [1, 2]), ("B", [3])] : List (String × List Nat))
  have hs : splitBatchWriteRequestsInChunks
      ([("A", [1, 2]), ("B", [3])] : List (String × List Nat))
      = [[("A", [1, 2]), ("B", [3])]] := by
    simp only [splitBatchWriteRequestsInChunks]
    rw [chunksOf_cons 24 (flattenRequests ([("A", [1, 2]), ("B", [3])] :
        List (String × List Nat))) (by decide)]
    rw [show (flattenRequests ([("A", [1, 2]), ("B", [3])] :
        List (String × List Nat))).drop 25 = [] from by decide]
    rw [chunksOf_nil]
    decide
  refine ⟨?_, ?_, ?_⟩
  · rw [h.1]
    decide
  · have hmem : ([("A", [1, 2]), ("B", [3])] : List (String × List Nat))
        ∈ splitBatchWriteRequestsInChunks
            ([("A", [1, 2]), ("B", [3])] : List (String × List Nat)) := by
      rw [hs]
      simp
    exact h.2.1 _ hmem
  · rw [h.2.2 "A"]
    decide

theorem retryErrorS_final_ge (isR : DynError → Bool) (f : Nat → Except DynError A)
    (sched : List Nat) :
    ∀ (n t s : Nat), sched.length - t ≤ n →
      s + 1 ≤ (retryErrorS isR (streamOp f) sched s t).final := by
  intro n
  induction n with
  | zero =>
      intro t s hn
      rcases hres : f s with e | v
      · by_cases hr : isR e
        · rw [retryErrorS_error_exhausted isR _ sched s t e (s + 1)
              (by simp [streamOp, hres]) hr (by omega)]
        · rw [retryErrorS_error_not_retryable isR _ sched s t e (s + 1)
              (by simp [streamOp, hres]) (by simpa using hr)]
      · rw [retryErrorS_ok isR _ sched s t v (s + 1) (by simp [streamOp, hres])]
  | succ n ih =>
      intro t s hn
      rcases hres : f s with e | v
      · by_cases hr : isR e
        · by_cases hc : t < sched.length
          · rw [retryErrorS_error_retry isR _ sched s t e (s + 1)
                (by simp [streamOp, hres]) hr hc]
            have := ih (t + 1) (s + 1) (by omega)
            simp only []
            omega
          · rw [retryErrorS_error_exhausted isR _ sched s t e (s + 1)
                (by simp [streamOp, hres]) hr hc]
        · rw [retryErrorS_error_not_retryable isR _ sched s t e (s + 1)
              (by simp [streamOp, hres]) (by simpa using hr)]
      · rw [retryErrorS_ok isR _ sched s t v (s + 1) (by simp [streamOp, hres])]

theorem batchWriteAux_spec (sched : List Nat) (raw : Nat → Except DynError Unit) :
    ∀ (bs : List (List (String × List α))) (s : Nat) (cur : List (String × List α)),
      bs ≠ [] →
      (batchWriteAux sched raw s cur bs).2.1 ∈ bs ∧
      (∀ u, (batchWriteAux sched raw s cur bs).1 = Except.ok u →
        some (batchWriteAux sched raw s cur bs).2.1 = bs.getLast?) ∧
      s + 1 ≤ (batchWriteAux sched raw s cur bs).2.2 := by
  intro bs
  induction bs with
  | nil => intro s cur h; exact absurd rfl h
  | cons b bs ih =>
      intro s cur _
      rcases hres : (retryErrorS isInternalServerError (streamOp raw) sched s 0).result
        with e | v
      · simp only [batchWriteAux, hres]
        refine ⟨List.mem_cons_self b bs, ?_, ?_⟩
        · intro u hu
          cases hu
        · exact retryErrorS_final_ge isInternalServerError raw sched
            (sched.length - 0) 0 s (le_refl _)
      · by_cases hbs : bs = []
        · subst hbs
          simp only [batchWriteAux, hres]
          refine ⟨List.mem_cons_self b [], ?_, ?_⟩
          · intro u _
            rfl
          · exact retryErrorS_final_ge isInternalServerError raw sched
              (sched.length - 0) 0 s (le_refl _)
        · have hih := ih (retryErrorS isInternalServerError (streamOp raw) sched s 0).final
            b hbs
          simp only [batchWriteAux, hres]
          refine ⟨List.mem_cons_of_mem b hih.1, ?_, ?_⟩
          · intro u hu
            rw [hih.2.1 u hu]
            obtain ⟨c, cs, rfl⟩ := List.exists_cons_of_ne_nil hbs
            exact List.getLast?_cons_cons.symm
          · have h1 := retryErrorS_final_ge isInternalServerError raw sched
              (sched.length - 0) 0 s (le_refl _)
            have h2 := hih.2.2
            omega

/-- **C10.** `batchWrite` mutates its input: for every request whose
entries split into at least one chunk, `Object.assign(request,
{RequestItems: batch})` runs at least once (at least one raw submission
is made, each of which re-assigns the field), so after `batchWrite`
returns or fails the caller's `RequestItems` field holds one of the
submitted chunk objects — the most recently submitted one — and on
success specifically the last chunk; the original value has been
overwritten. -/
theorem batchWrite_overwrites_request_items (sched : List Nat)
    (raw : Nat → Except DynError Unit) (request : List (String × List α))
    (h : flattenRequests request ≠ []) :
    (batchWrite sched raw request).2.1 ∈ splitBatchWriteRequestsInChunks request ∧
    (∀ u, (batchWrite sched raw request).1 = Except.ok u →
      some (batchWrite sched raw request).2.1
        = (splitBatchWriteRequestsInChunks request).getLast?) ∧
    1 ≤ (batchWrite sched raw request).2.2 := by
  have hne : splitBatchWriteRequestsInChunks request ≠ [] := by
    simp only [splitBatchWriteRequestsInChunks]
    rw [chunksOf_cons 24 _ h]
    simp
  have hspec := batchWriteAux_spec sched raw (splitBatchWriteRequestsInChunks request)
    0 request hne
  exact hspec

/-- Witness for C10: a 3-entry request with an always-succeeding client —
the field ends as the (single, last) submitted chunk and at least one
overwrite happened. -/
theorem batchWrite_overwrites_request_items_witness :
    (batchWrite [] (fun _ => Except.ok ())
        ([("A", [1, 2]), ("B", [3])] : List (String × List Nat))).2.1
      ∈ splitBatchWriteRequestsInChunks
          ([("A", [1, 2]), ("B", [3])] : List (String × List Nat)) ∧
    1 ≤ (batchWrite [] (fun _ => Except.ok ())
        ([("A", [1, 2]), ("B", [3])] : List (String × List Nat))).2.2 :=
  ⟨(batchWrite_overwrites_request_items [] (fun _ => Except.ok ())
      ([("A", [1, 2]), ("B", [3])] : List (String × List Nat)) (by decide)).1,
   (batchWrite_overwrites_request_items [] (fun _ => Except.ok ())
      ([("A", [1, 2]), ("B", [3])] : List (String × List Nat)) (by decide)).2.2⟩

theorem sumCountResponses_eq_sum (pages : List CountPage) :
    sumCountResponses pages = (pages.map CountPage.Count).sum := by
  suffices h : ∀ (acc : Nat) (ps : List CountPage),
      ps.foldl (fun c r => c + r.Count) acc = acc + (ps.map CountPage.Count).sum by
    simpa [sumCountResponses] using h 0 pages
  intro acc ps
  induction ps generalizing acc with
  | nil => simp
  | cons p ps ih =>
      simp only [List.foldl_cons, List.map_cons, List.sum_cons, ih]
      omega

/-- **C5.** `scanCount` and `queryCount` return the sum of the `Count`
fields of all pages of the page sequence; a count request whose `Select`
attribute is not `'COUNT'` fails with an `AssertionError` whose outcome
does not depend on the page source at all (no page is consumed), and that
error is classified retryable by neither error classifier (and the count
methods are wrapped in no retry executor in the source). -/
theorem count_aggregation_and_validation :
    (∀ (input : ScanInput) (pages : List CountPage), input.Select = some "COUNT" →
      scanCount input pages = .ok ((pages.map CountPage.Count).sum) ∧
      queryCount input pages = .ok ((pages.map CountPage.Count).sum))
    ∧
    (∀ input : ScanInput, input.Select ≠ some "COUNT" →
      (∀ pages pages' : List CountPage,
        scanCount input pages = scanCount input pages' ∧
        queryCount input pages = queryCount input pages') ∧
      scanCount input [] = .error (.otherError "AssertionError") ∧
      queryCount input [] = .error (.otherError "AssertionError") ∧
      isInternalServerError (.otherError "AssertionError") = false ∧
      isRetryableTransactionError (.otherError "AssertionError") = false) := by
  constructor
  · intro input pages h
    constructor
    · simp [scanCount, h, sumCountResponses_eq_sum]
    · simp [queryCount, h, sumCountResponses_eq_sum]
  · intro input h
    refine ⟨?_, ?_, ?_, rfl, rfl⟩
    · intro pages pages'
      constructor
      · simp [scanCount, h]
      · simp [queryCount, h]
    · simp [scanCount, h]
    · simp [queryCount, h]

/-- Witness for C5 at the repository's own test data: two pages with
counts 3 and 8 sum to 11; a request without `Select = 'COUNT'` fails
independently of the page source. -/
theorem count_aggregation_and_validation_witness :
    scanCount ⟨"tableName", some "COUNT"⟩ [⟨3⟩, ⟨8⟩] = .ok 11 ∧
    queryCount ⟨"tableName", some "COUNT"⟩ [⟨3⟩, ⟨8⟩] = .ok 11 ∧
    scanCount ⟨"tableName", none⟩ [⟨3⟩, ⟨8⟩] = scanCount ⟨"tableName", none⟩ [] ∧
    scanCount ⟨"tableName", none⟩ [] = .error (.otherError "AssertionError") := by
  have h1 := count_aggregation_and_validation.1 ⟨"tableName", some "COUNT"⟩ [⟨3⟩, ⟨8⟩] rfl
  have h2 := count_aggregation_and_validation.2 ⟨"tableName", none⟩ (by simp)
  refine ⟨?_, ?_, (h2.1 [⟨3⟩, ⟨8⟩] []).1, h2.2.1⟩
  · rw [h1.1]
    rfl
  · rw [h1.2]
    rfl

theorem sameKey_iff (k1 k2 : AttrMap) :
    sameKey k1 k2 = true ↔ ∀ p ∈ k1, attrLookup k2 p.1 = some p.2 := by
  simp [sameKey, List.all_eq_true]

theorem attrLookup_append_of_some (k ex : AttrMap) (n : String) (v : Nat)
    (h : attrLookup k n = some v) : attrLookup (k ++ ex) n = some v := by
  induction k with
  | nil => cases h
  | cons p ps ih =>
      simp only [attrLookup, List.cons_append] at h ⊢
      by_cases hp : p.1 = n
      · simpa [hp] using h
      · rw [if_neg hp] at h ⊢
        exact ih h

theorem attrLookup_eq_some_of_mem (k : AttrMap) (n : String) (v : Nat)
    (hnd : (namesOf k).Nodup) (hm : (n, v) ∈ k) : attrLookup k n = some v := by
  induction k with
  | nil => cases hm
  | cons p ps ih =>
      simp only [namesOf, List.map_cons, List.nodup_cons] at hnd
      rcases List.mem_cons.mp hm with hm1 | hm1
      · subst hm1
        simp [attrLookup]
      · have hne : p.1 ≠ n := by
          intro hc
          apply hnd.1
          have : (n, v).1 ∈ namesOf ps := List.mem_map_of_mem Prod.fst hm1
          simpa [namesOf, hc] using this
        simp only [attrLookup, if_neg hne]
        exact ih hnd.2 hm1

theorem mem_of_attrLookup_eq_some (k : AttrMap) (n : String) (v : Nat)
    (h : attrLookup k n = some v) : (n, v) ∈ k := by
  induction k with
  | nil => cases h
  | cons p ps ih =>
      simp only [attrLookup] at h
      by_cases hp : p.1 = n
      · rw [if_pos hp] at h
        have : p = (n, v) := by
          cases p
          simp at hp h
          simp [hp, h]
        rw [← this]
        exact List.mem_cons_self p ps
      · rw [if_neg hp] at h
        exact List.mem_cons_of_mem p (ih h)

/-- **C8 (counterexample).** The `sameKey` relation is not symmetric and
extra attributes do break equality on the first-argument side: a key
`{a: 1}` compares equal to `{a: 1, b: 2}`, but `{a: 1, b: 2}` does not
compare equal to `{a: 1}`. -/
theorem sameKey_not_symmetric_counterexample :
    sameKey [("a", 1)] [("a", 1), ("b", 2)] = true ∧
    sameKey [("a", 1), ("b", 2)] [("a", 1)] = false := by
  decide

/-- **C8 (amended).** `sameKey k1 k2` holds iff every attribute of `k1`
matches the corresponding attribute of `k2`: extra attributes on the
second argument never break equality (appending attributes to `k2`
preserves a match), the relation is reflexive (for keys without duplicate
attribute names, as JS objects are), but it is one-directional subset
matching, symmetric only between keys with the same attribute-name
domains — not in general, as extra attributes on the first argument do
break equality. -/
theorem sameKey_subset_matching :
    (∀ k1 k2 ex : AttrMap, sameKey k1 k2 = true → sameKey k1 (k2 ++ ex) = true)
    ∧
    (∀ k : AttrMap, (namesOf k).Nodup → sameKey k k = true)
    ∧
    (∀ k1 k2 : AttrMap, (namesOf k1).Nodup → (namesOf k2).Nodup →
      (∀ n, (attrLookup k1 n).isSome ↔ (attrLookup k2 n).isSome) →
      sameKey k1 k2 = true → sameKey k2 k1 = true) := by
  refine ⟨?_, ?_, ?_⟩
  · intro k1 k2 ex h
    rw [sameKey_iff] at h ⊢
    intro p hp
    exact attrLookup_append_of_some k2 ex p.1 p.2 (h p hp)
  · intro k hnd
    rw [sameKey_iff]
    intro p hp
    exact attrLookup_eq_some_of_mem k p.1 p.2 hnd (by simpa using hp)
  · intro k1 k2 hnd1 hnd2 hdom h
    rw [sameKey_iff] at h ⊢
    intro p hp
    have hk2 : attrLookup k2 p.1 = some p.2 :=
      attrLookup_eq_some_of_mem k2 p.1 p.2 hnd2 (by simpa using hp)
    have hs : (attrLookup k1 p.1).isSome := by
      rw [hdom p.1, hk2]
      rfl
    obtain ⟨w, hw⟩ := Option.isSome_iff_exists.mp hs
    have hmem : (p.1, w) ∈ k1 := mem_of_attrLookup_eq_some k1 p.1 w hw
    have := h (p.1, w) hmem
    rw [hk2] at this
    have hwv : w = p.2 := by
      injection this with hinj
      exact hinj.symm
    rw [hw, hwv]

/-- Witness for the amended C8: appending an attribute to the second key
preserves a match; reflexivity; and symmetry between two keys holding the
same attributes in different orders. -/
theorem sameKey_subset_matching_witness :
    sameKey [("a", 1)] ([("a", 1)] ++ [("b", 2)]) = true ∧
    sameKey [("a", 1), ("b", 2)] [("a", 1), ("b", 2)] = true ∧
    sameKey [("b", 2), ("a", 1)] [("a", 1), ("b", 2)] = true := by
  have h := sameKey_subset_matching
  refine ⟨h.1 [("a", 1)] [("a", 1)] [("b", 2)] (by decide),
          h.2.1 [("a", 1), ("b", 2)] (by decide),
          h.2.2 [("a", 1), ("b", 2)] [("b", 2), ("a", 1)] (by decide) (by decide)
            ?_ (by decide)⟩
  intro n
  by_cases ha : "a" = n <;> by_cases hb : "b" = n <;> simp [attrLookup, ha, hb]

theorem lookupResult_map_setKey (k : AttrMap) (v : Option AttrMap)
    (m : List (AttrMap × Option AttrMap)) :
    lookupResult (m.map (fun p => if p.1 = k then (k, v) else p)) k
      = if m.any (fun p => p.1 = k) then some v else none := by
  induction m with
  | nil => rfl
  | cons p ps ih =>
      by_cases hp : p.1 = k
      · simp [lookupResult, List.find?_cons, hp]
      · simp only [List.map_cons, if_neg hp, List.any_cons]
        simp only [lookupResult, List.find?_cons] at ih ⊢
        simp only [decide_eq_false hp, Bool.false_or]
        exact ih

theorem lookupResult_append_single (k : AttrMap) (v : Option AttrMap)
    (m : List (AttrMap × Option AttrMap)) (h : m.any (fun p => p.1 = k) = false) :
    lookupResult (m ++ [(k, v)]) k = some v := by
  induction m with
  | nil => simp [lookupResult, List.find?_cons]
  | cons p ps ih =>
      simp only [List.any_cons, Bool.or_eq_false_iff] at h
      simp only [List.cons_append, lookupResult, List.find?_cons] at ih ⊢
      simp only [h.1]
      exact ih h.2

theorem lookupResult_setKey_self (m : List (AttrMap × Option AttrMap)) (k : AttrMap)
    (v : Option AttrMap) : lookupResult (setKey m k v) k = some v := by
  cases hm : m.any (fun p => p.1 = k) with
  | true =>
      simp only [setKey, hm, if_true]
      rw [lookupResult_map_setKey, hm, if_pos rfl]
  | false =>
      simp only [setKey, hm, Bool.false_eq_true, if_false]
      exact lookupResult_append_single k v m hm

theorem lookupResult_map_setKey_other (k k' : AttrMap) (v : Option AttrMap)
    (hne : k' ≠ k) (m : List (AttrMap × Option AttrMap)) :
    lookupResult (m.map (fun p => if p.1 = k then (k, v) else p)) k'
      = lookupResult m k' := by
  induction m with
  | nil => rfl
  | cons p ps ih =>
      by_cases hp : p.1 = k
      · simp only [List.map_cons, if_pos hp]
        simp only [lookupResult, List.find?_cons] at ih ⊢
        simp only [decide_eq_false (fun hc : k = k' => hne hc.symm),
          decide_eq_false (fun hc : p.1 = k' => hne ((hp.symm.trans hc).symm))]
        exact ih
      · simp only [List.map_cons, if_neg hp]
        simp only [lookupResult, List.find?_cons] at ih ⊢
        by_cases hpk : p.1 = k'
        · simp only [decide_eq_true hpk]
        · simp only [decide_eq_false hpk]
          exact ih

theorem lookupResult_append_single_other (k k' : AttrMap) (v : Option AttrMap)
    (hne : k' ≠ k) (m : List (AttrMap × Option AttrMap)) :
    lookupResult (m ++ [(k, v)]) k' = lookupResult m k' := by
  induction m with
  | nil =>
      simp only [List.nil_append, lookupResult, List.find?_cons]
      simp only [decide_eq_false (fun hc : k = k' => hne hc.symm)]
  | cons p ps ih =>
      simp only [List.cons_append, lookupResult, List.find?_cons] at ih ⊢
      by_cases hpk : p.1 = k'
      · simp only [decide_eq_true hpk]
      · simp only [decide_eq_false hpk]
        exact ih

theorem lookupResult_setKey_other (m : List (AttrMap × Option AttrMap)) (k k' : AttrMap)
    (v : Option AttrMap) (hne : k' ≠ k) :
    lookupResult (setKey m k v) k' = lookupResult m k' := by
  cases hm : m.any (fun p => p.1 = k) with
  | true =>
      simp only [setKey, hm, if_true]
      exact lookupResult_map_setKey_other k k' v hne m
  | false =>
      simp only [setKey, hm, Bool.false_eq_true, if_false]
      exact lookupResult_append_single_other k k' v hne m

theorem processBatch_preserves (items : List AttrMap) (k : AttrMap) :
    ∀ (keys : List AttrMap) (m : List (AttrMap × Option AttrMap)), k ∉ keys →
      lookupResult (processBatchResponse keys items m) k = lookupResult m k := by
  intro keys
  induction keys with
  | nil => intro m _; rfl
  | cons p ks ih =>
      intro m hk
      have hkp : k ≠ p := fun hc => hk (hc ▸ List.mem_cons_self p ks)
      have hkks : k ∉ ks := fun hc => hk (List.mem_cons_of_mem p hc)
      simp only [processBatchResponse, List.foldl_cons] at ih ⊢
      rw [ih _ hkks, lookupResult_setKey_other m p k _ hkp]

theorem processBatch_mem (items : List AttrMap) (k : AttrMap) :
    ∀ (keys : List AttrMap) (m : List (AttrMap × Option AttrMap)), k ∈ keys →
      lookupResult (processBatchResponse keys items m) k
        = some (items.find? (fun item => sameKey k item)) := by
  intro keys
  induction keys with
  | nil => intro m hk; cases hk
  | cons p ks ih =>
      intro m hk
      by_cases hks : k ∈ ks
      · simp only [processBatchResponse, List.foldl_cons] at ih ⊢
        exact ih _ hks
      · have hkp : k = p := by
          rcases List.mem_cons.mp hk with h | h
          · exact h
          · exact absurd h hks
        subst hkp
        simp only [processBatchResponse, List.foldl_cons]
        have hpres := processBatch_preserves items k ks
          (setKey m k (items.find? (fun item => sameKey k item))) hks
        simp only [processBatchResponse] at hpres
        rw [hpres, lookupResult_setKey_self]

theorem getListRun_append_last (keys : List AttrMap) (resp : Nat → List AttrMap)
    (order : List Nat) (j : Nat) (k : AttrMap) (hk : k ∈ keys) :
    lookupResult (getListRun keys resp (order ++ [j])) k
      = some ((resp j).find? (fun item => sameKey k item)) := by
  simp only [getListRun, List.foldl_append, List.foldl_cons, List.foldl_nil]
  exact processBatch_mem (resp j) k keys _ hk

set_option maxRecDepth 40000 in
/-- **C2 (refuting the claim; code bug).** On a key list of 101 distinct
keys (two batches), the value `getList` records for a key is NOT obtained
by scanning the concatenation of all batches' response items: each
batch's completion re-runs the result loop over ALL original keys using
only that batch's response, so the last-completing batch overwrites every
entry.  With batch 0's response holding the item for key `{id: 0}` and
batch 1's response empty (completion order: batch 0 first), the final map
sends `{id: 0}` to absent, while the concatenated scan the spec
describes finds the item. -/
theorem getList_last_batch_overwrites :
    (getListBatches manyKeys).length = 2 ∧
    lookupResult (getListRun manyKeys manyResp [0, 1]) [("id", 0)] = some none ∧
    concatScanValue 2 manyResp [("id", 0)] = some [("id", 0), ("v", 7)] := by
  refine ⟨?_, ?_, ?_⟩
  · have hfilter : filterRepeatedKeys manyKeys = manyKeys := by decide
    simp only [getListBatches, hfilter]
    rw [chunksOf_cons 99 manyKeys (by decide)]
    rw [show manyKeys.drop 100 = [[("id", 100)]] from by decide]
    rw [chunksOf_cons 99 [[("id", 100)]] (by decide)]
    rw [show ([[("id", 100)]] : List AttrMap).drop 100 = [] from by decide]
    rw [chunksOf_nil]
    rfl
  · have hmem : [("id", (0 : Nat))] ∈ manyKeys := by
      simp only [manyKeys]
      exact List.mem_map_of_mem _ (by decide)
    rw [show ([0, 1] : List Nat) = [0] ++ [1] from rfl,
        getListRun_append_last manyKeys manyResp [0] 1 [("id", 0)] hmem]
    rfl
  · decide

theorem dedupe_foldl_ne_nil :
    ∀ (l acc : List AttrMap), acc ≠ [] →
      l.foldl (fun output key =>
        if output.any (fun k2 => sameKey key k2) then output else output ++ [key]) acc ≠ [] := by
  intro l
  induction l with
  | nil => intro acc h; exact h
  | cons x xs ih =>
      intro acc h
      simp only [List.foldl_cons]
      apply ih
      by_cases hx : acc.any (fun k2 => sameKey x k2)
      · simpa [hx] using h
      · simp [hx]

theorem filterRepeatedKeys_ne_nil (keys : List AttrMap) (h : keys ≠ []) :
    filterRepeatedKeys keys ≠ [] := by
  obtain ⟨k, ks, rfl⟩ := List.exists_cons_of_ne_nil h
  have hstep : filterRepeatedKeys (k :: ks)
      = ks.foldl (fun output key =>
          if output.any (fun k2 => sameKey key k2) then output else output ++ [key]) [k] := by
    simp [filterRepeatedKeys]
  rw [hstep]
  exact dedupe_foldl_ne_nil ks [k] (by simp)

theorem findFirstError_append (f : Nat → Option DynError) :
    ∀ (o1 : List Nat) (j : Nat) (o2 : List Nat) (e : DynError),
      (∀ i ∈ o1, f i = none) →
      f j = some e →
      (o1 ++ j :: o2).findSome? f = some e := by
  intro o1
  induction o1 with
  | nil =>
      intro j o2 e _ hj
      simp [List.findSome?_cons, hj]
  | cons i o1 ih =>
      intro j o2 e h1 hj
      have hi : f i = none := h1 i (List.mem_cons_self i o1)
      simp only [List.cons_append, List.findSome?_cons, hi]
      exact ih j o2 e (fun x hx => h1 x (List.mem_cons_of_mem i hx)) hj

/-- **C6 (amended).** `getList` does not wrap its batched gets in any
retry executor: each batch issues exactly one `batchGet` call.  Whenever
the first batch to settle with a rejection is batch `j` — every batch
settling before it succeeded, wherever `j` sits in the settle order, and
with no assumption on the batches settling after it — the whole `getList`
call fails with `j`'s error unchanged: retryable under the server-error
classifier or not, no second attempt is made. -/
theorem getList_batchGet_unretried (keys : List AttrMap)
    (resp : Nat → Except DynError (List AttrMap)) (o1 o2 : List Nat) (j : Nat)
    (e : DynError)
    (h1 : ∀ i ∈ o1, ∃ items, resp i = .ok items)
    (hj : resp j = .error e) :
    getListF keys resp (o1 ++ j :: o2) = .error e := by
  simp only [getListF]
  have hfind : (o1 ++ j :: o2).findSome? (fun i =>
      match resp i with
      | .error er => some er
      | .ok _ => none) = some e := by
    apply findFirstError_append _ o1 j o2 e
    · intro i hi
      obtain ⟨items, hit⟩ := h1 i hi
      simp [hit]
    · simp [hj]
  rw [hfind]

/-- **C6 (counterexample).** A single-batch `getList` whose batched get
fails once with a transient `InternalServerError` and would succeed on a
retried attempt FAILS as the code stands (no retry wrapping), while the
spec's retry-wrapped version succeeds on the same attempt stream: the
claim that the wrapping makes such a call succeed is false of the
source. -/
theorem getList_retry_claim_counterexample :
    (getListBatches [[("id", 1)]]).length = 1 ∧
    getListF [[("id", 1)]]
        (fun j => if j = 0 then .error .internalServerError else .ok []) [0]
      = .error .internalServerError ∧
    getListSpecRetried [[("id", 1)]]
        (fun _ i => if i = 0 then .error .internalServerError
          else .ok [[("id", 1), ("v", 5)]])
        [100, 500, 1000] [0]
      = .ok [([("id", 1)], some [("id", 1), ("v", 5)])] ∧
    getListF [[("id", 1)]]
        (fun j => if j = 0 then .error .internalServerError else .ok []) [0]
      ≠ getListSpecRetried [[("id", 1)]]
          (fun _ i => if i = 0 then .error .internalServerError
            else .ok [[("id", 1), ("v", 5)]])
          [100, 500, 1000] [0] := by
  have hb : getListBatches [[("id", 1)]] = [[[("id", 1)]]] := by
    simp only [getListBatches]
    rw [show filterRepeatedKeys [[("id", 1)]] = [[("id", 1)]] from rfl]
    rw [chunksOf_cons 99 _ (by decide)]
    rw [show ([[("id", 1)]] : List AttrMap).drop 100 = [] from by decide]
    rw [chunksOf_nil]
    rfl
  have h1 : getListF [[("id", 1)]]
      (fun j => if j = 0 then .error .internalServerError else .ok []) [0]
      = .error .internalServerError := rfl
  have hr : (retryErrorS isInternalServerError
      (streamOp (fun i : Nat => if i = 0
        then (.error DynError.internalServerError : Except DynError (List AttrMap))
        else .ok [[("id", 1), ("v", 5)]]))
      [100, 500, 1000] 0 0).result = .ok [[("id", 1), ("v", 5)]] := by
    rw [retryErrorS_error_retry isInternalServerError _ [100, 500, 1000] 0 0
        .internalServerError 1 rfl rfl (by decide)]
    rw [retryErrorS_ok isInternalServerError _ [100, 500, 1000] 1 1
        [[("id", 1), ("v", 5)]] 2 rfl]
  have h2 : getListSpecRetried [[("id", 1)]]
      (fun _ i => if i = 0 then .error .internalServerError
        else .ok [[("id", 1), ("v", 5)]])
      [100, 500, 1000] [0]
      = .ok [([("id", 1)], some [("id", 1), ("v", 5)])] := by
    simp only [getListSpecRetried, List.findSome?_cons, List.findSome?_nil]
    rw [hr]
    rfl
  exact ⟨by rw [hb]; rfl, h1, h2, by rw [h1, h2]; simp⟩

/-- Witness for the amended C6: a one-key `getList` whose batched get
fails with `InternalServerError` while a later-indexed batch promise has
already settled successfully fails the whole call with that very error,
no retry attempted. -/
theorem getList_batchGet_unretried_witness :
    getListF [[("id", 1)]]
        (fun j => if j = 0 then .error .internalServerError else .ok []) [1, 0]
      = .error .internalServerError :=
  getList_batchGet_unretried [[("id", 1)]]
    (fun j => if j = 0 then .error .internalServerError else .ok []) [1] [] 0
    .internalServerError
    (by
      intro i hi
      obtain rfl : i = 1 := by simpa using hi
      exact ⟨[], rfl⟩)
    rfl
